import Mathlib

/-!
Shallow embedding of `src/commands/paas_reporter.py`.

Lines of a document are modelled as `List Char`; the document itself is a
`List Char` containing newline characters, split by `splitNl` exactly as
Python's `content.split('\n')` does.  Python's `str.strip()` / `str.lstrip()`
whitespace set is modelled by its ASCII members, and the regex classes
`\w` / `\s` of `re.search(r'[^\w\s-]', key)` are modelled by ASCII
alphanumerics plus underscore, and ASCII whitespace, respectively.

The Python list `indentation_stack` is modelled with its *top at the head*:
`append` becomes `cons`, `pop()` takes the head.  Membership (`in`) and the
pop loop translate directly under this mapping.
-/

namespace YamlCheck

/-- ASCII characters stripped by Python's `str.strip()` / `str.lstrip()`
(and matched by the regex class `\s`). -/
def isPySpace (c : Char) : Bool :=
  c == ' ' || c == '\t' || c == '\n' || c == '\r' || c == '\x0B' || c == '\x0C'

/-- `line.lstrip()` (source line 116). -/
def lstrip (l : List Char) : List Char := l.dropWhile isPySpace

/-- `line.strip()` (source line 111): remove leading and trailing whitespace. -/
def strip (l : List Char) : List Char :=
  ((l.dropWhile isPySpace).reverse.dropWhile isPySpace).reverse

/-- `indent = len(line) - len(line.lstrip())` (source line 116). -/
def indentOf (l : List Char) : Nat := l.length - (lstrip l).length

/-- The regex class `\w`, restricted to ASCII: alphanumerics and underscore. -/
def isWordChar (c : Char) : Bool := c.isAlphanum || c == '_'

/-- `re.search(r'[^\w\s-]', key)` succeeds: some character of the key is
outside the class of word characters, whitespace and hyphen (source line 128). -/
def hasBadKeyChar (key : List Char) : Bool :=
  key.any (fun c => !(isWordChar c || isPySpace c || c == '-'))

/-- `':' in line` (source lines 119 and 126). -/
def hasColon (l : List Char) : Bool := l.any (fun c => c == ':')

/-- `'\t' in line` (source line 134). -/
def hasTab (l : List Char) : Bool := l.any (fun c => c == '\t')

/-- `s.startswith(c)` for a one-character needle (source lines 112, 119, 120). -/
def headIs (l : List Char) (c : Char) : Bool :=
  match l with
  | [] => false
  | a :: _ => a == c

/-- `line.split(':', 1)[0]` when the line contains a colon (source line 127). -/
def keyOf (l : List Char) : List Char := l.takeWhile (fun c => c != ':')

/-- `content.split('\n')` — Python's split, which always yields at least one
(possibly empty) chunk. -/
def splitNl : List Char → List (List Char)
  | [] => [[]]
  | c :: rest =>
    let r := splitNl rest
    if c == '\n' then [] :: r
    else (c :: r.headD []) :: r.tail

/-- `not stripped or stripped.startswith('#')` (source line 112): the line is
blank after stripping or a comment, and is skipped. -/
def isSkip (line : List Char) : Bool :=
  (strip line).isEmpty || headIs (strip line) '#'

/-- Reason codes of the scan's error messages (source lines 121, 129, 135,
145 and 151; naming follows the spec's error taxonomy). -/
inductive Reason where
  | MissingDelimiterOrListMarker
  | InvalidKeyCharacter
  | TabCharacterFound
  | InconsistentIndentation
deriving DecidableEq

/-- The scanner's mutable indentation state: `indentation_stack` (top at the
head of the list) and `current_indent` (source lines 106 and 107). -/
structure TrackerState where
  stack : List Nat
  current : Nat
deriving DecidableEq

/-- The state installed at the start of every scan (source lines 106 and 107). -/
def initState : TrackerState := ⟨[], 0⟩

/-- Result of one scan (source return values at lines 123/131/137/147/153
and 156). -/
inductive Verdict where
  | valid
  | invalid (lineNum : Nat) (reason : Reason)
deriving DecidableEq

/-- The pop loop of source lines 148 and 149:
`while indentation_stack and indent < current_indent: current_indent = indentation_stack.pop()`.
Returns the final `(indentation_stack, current_indent)` pair. -/
def popTo (indent : Nat) : List Nat → Nat → List Nat × Nat
  | [], current => ([], current)
  | t :: rest, current =>
    if indent < current then popTo indent rest t else (t :: rest, current)

/-- The indentation-tracking block of source lines 140 to 153, acting on one
observed indent width. -/
def observe (s : TrackerState) (indent : Nat) : Except Reason TrackerState :=
  if s.current < indent then
    .ok ⟨s.current :: s.stack, indent⟩
  else if indent < s.current then
    if indent ∈ s.stack then
      let p := popTo indent s.stack s.current
      if indent = p.2 then .ok ⟨p.1, p.2⟩
      else .error .InconsistentIndentation
    else .error .InconsistentIndentation
  else .ok s

/-- The three per-line checks of source lines 119 to 137, in source order:
missing delimiter / list marker, invalid key character, tab character.
`none` means the line passes all three. -/
def scanLine (line : List Char) : Option Reason :=
  if !hasColon line && !headIs (strip line) '-' &&
     !(strip line).isEmpty && !headIs (strip line) '#' then
    some .MissingDelimiterOrListMarker
  else if hasColon line && hasBadKeyChar (strip (keyOf line)) then
    some .InvalidKeyCharacter
  else if hasTab line then
    some .TabCharacterFound
  else none

/-- The scan loop of source lines 109 to 153 over the remaining lines,
carrying the tracker state and the 1-based number of the next line.
`.error (n, r)` is the early return `(False, "Line n: r")`;
`.ok s` is falling off the loop with final state `s`. -/
def scanLines : TrackerState → Nat → List (List Char) → Except (Nat × Reason) TrackerState
  | s, _, [] => .ok s
  | s, n, line :: rest =>
    if isSkip line then scanLines s (n + 1) rest
    else
      match scanLine line with
      | some r => .error (n, r)
      | none =>
        match observe s (indentOf line) with
        | .error r => .error (n, r)
        | .ok s2 => scanLines s2 (n + 1) rest

/-- `basic_yaml_syntax_check(content)` (source lines 94 to 156), with the
`(bool, message)` pair abstracted to a `Verdict`. -/
def basic_yaml_syntax_check (content : List Char) : Verdict :=
  match scanLines initState 1 (splitNl content) with
  | .ok _ => .valid
  | .error (n, r) => .invalid n r

/-- The scan as run after some earlier scan left tracker state `prior`:
source lines 106 and 107 reassign `indentation_stack = []` and
`current_indent = 0` at function entry, so `prior` is discarded. -/
def scanFrom (prior : TrackerState) (content : List Char) : Verdict :=
  match prior with
  | _ =>
    match scanLines ⟨[], 0⟩ 1 (splitNl content) with
    | .ok _ => .valid
    | .error (n, r) => .invalid n r

/-- `validate_file_size(filepath, max_size_bytes)` (source lines 68 to 92).
The filesystem call `os.path.getsize` is abstracted as an input: `.ok n` is a
successful stat returning `n` bytes, `.error e` is an `OSError`. -/
def validate_file_size (statResult : Except String Nat) (max_size_bytes : Nat) : Bool :=
  match statResult with
  | .ok file_size => if file_size > max_size_bytes then false else true
  | .error _ => false

/-- `True` component of the scan result, as a Bool on the loop's `Except`. -/
def isOkE (e : Except (Nat × Reason) TrackerState) : Bool :=
  match e with
  | .ok _ => true
  | .error _ => false

/-- The conceptual indentation stack of the spec's data model, listed from
bottom to top: the pushed widths (which `TrackerState.stack` stores top at
the head) followed by the current active width as its top element. -/
def fullStack (s : TrackerState) : List Nat := s.stack.reverse ++ [s.current]

/-- The spec's stack invariant: the conceptual stack is strictly increasing
from bottom to top, and its top element is the current active indent width. -/
def SpecInv (s : TrackerState) : Prop :=
  List.Pairwise (· < ·) (fullStack s) ∧ (fullStack s).getLast? = some s.current

/-- Working form of the invariant on the code's own representation:
`current_indent` strictly dominates the stack, which is strictly decreasing
from its head (top) down. -/
def Inv (s : TrackerState) : Prop :=
  List.Pairwise (· > ·) (s.current :: s.stack)

instance {ε α : Type} [DecidableEq ε] [DecidableEq α] : DecidableEq (Except ε α) := by
  intro a b
  cases a <;> cases b
  case error.error x y =>
    exact if h : x = y then .isTrue (by rw [h]) else .isFalse (by intro hh; cases hh; exact h rfl)
  case error.ok x y => exact .isFalse (by intro hh; cases hh)
  case ok.error x y => exact .isFalse (by intro hh; cases hh)
  case ok.ok x y =>
    exact if h : x = y then .isTrue (by rw [h]) else .isFalse (by intro hh; cases hh; exact h rfl)

instance (s : TrackerState) : Decidable (SpecInv s) := by
  unfold SpecInv; infer_instance

instance (s : TrackerState) : Decidable (Inv s) := by
  unfold Inv; infer_instance

/-- The widths pushed onto `indentation_stack` (source line 141) while the
scan processes the given lines from state `s`, in order of pushing;
computation stops where the scan itself would stop. -/
def pushedDuring : TrackerState → List (List Char) → List Nat
  | _, [] => []
  | s, line :: rest =>
    if isSkip line then pushedDuring s rest
    else
      match scanLine line with
      | some _ => []
      | none =>
        match observe s (indentOf line) with
        | .error _ => []
        | .ok s2 =>
          (if s.current < indentOf line then [s.current] else []) ++ pushedDuring s2 rest

/-- The successor tracker state on the success path of `observe`. -/
def nextState (s : TrackerState) (indent : Nat) : TrackerState :=
  if s.current < indent then ⟨s.current :: s.stack, indent⟩
  else if indent < s.current then ⟨(popTo indent s.stack s.current).1, (popTo indent s.stack s.current).2⟩
  else s

/-- Shape condition of spec property 1 exactly as the claim words it:
the line contains the delimiter with a key made only of allowed characters,
or its stripped form begins with the list-item marker. -/
def specLineShapeOK (line : List Char) : Bool :=
  (hasColon line && !hasBadKeyChar (strip (keyOf line))) || headIs (strip line) '-'

/-- Amended shape condition: the line contains the delimiter or begins with
the list-item marker, and whenever it contains the delimiter its key is made
only of allowed characters. -/
def goodShapeB (line : List Char) : Bool :=
  (hasColon line || headIs (strip line) '-') &&
  (!hasColon line || !hasBadKeyChar (strip (keyOf line)))

/-- The indentation discipline of spec property 1, evaluated along the
tracker's evolution: each content line's indent width is greater than the
current width, equal to it, or a previously pushed width still on the stack. -/
def goodIndentsB : TrackerState → List (List Char) → Bool
  | _, [] => true
  | s, line :: rest =>
    if isSkip line then goodIndentsB s rest
    else
      (decide (s.current < indentOf line) || decide (indentOf line = s.current) ||
        decide (indentOf line ∈ s.stack)) &&
      goodIndentsB (nextState s (indentOf line)) rest

/-! ## Lemmas about the pop loop -/

/-- If the loop guard `indent < current` fails, the pop loop does nothing. -/
theorem popTo_stop {indent : Nat} (stack : List Nat) (current : Nat)
    (h : ¬ indent < current) : popTo indent stack current = (stack, current) := by
  cases stack with
  | nil => rfl
  | cons t rest => simp [popTo, h]

/-- On a strictly decreasing stack containing `indent` below `current`, the
pop loop stops exactly at `indent`, and the remaining stack stays strictly
below it. -/
theorem popTo_spec {indent : Nat} :
    ∀ (stack : List Nat) (current : Nat),
      List.Pairwise (· > ·) (current :: stack) → indent ∈ stack → indent < current →
      (popTo indent stack current).2 = indent ∧
      List.Pairwise (· > ·) ((popTo indent stack current).2 :: (popTo indent stack current).1)
  | [], _, _, hm, _ => absurd hm (List.not_mem_nil _)
  | t :: rest, current, hpw, hm, hlt => by
    have hstep : popTo indent (t :: rest) current = popTo indent rest t := by
      simp [popTo, hlt]
    rw [hstep]
    have hpw2 : List.Pairwise (· > ·) (t :: rest) := hpw.of_cons
    rcases List.mem_cons.mp hm with heq | hmem
    · subst heq
      rw [popTo_stop rest indent (by omega)]
      exact ⟨rfl, hpw2⟩
    · have hti : t > indent := List.rel_of_pairwise_cons hpw2 hmem
      exact popTo_spec rest t hpw2 hmem hti

/-- The pop loop only removes elements: the resulting stack is made of
elements of the input stack. -/
theorem popTo_stack_mem {indent : Nat} :
    ∀ (stack : List Nat) (current x : Nat), x ∈ (popTo indent stack current).1 → x ∈ stack
  | [], _, _, h => by simp [popTo] at h
  | t :: rest, current, x, h => by
    by_cases hlt : indent < current
    · have hh : x ∈ (popTo indent rest t).1 := by
        simpa [popTo, hlt] using h
      exact List.mem_cons_of_mem t (popTo_stack_mem rest t x hh)
    · rw [popTo_stop (t :: rest) current hlt] at h
      exact h

/-! ## Lemmas about one observation of the tracker -/

/-- A successful observation preserves the working invariant. -/
theorem observe_inv {s : TrackerState} {indent : Nat} {s2 : TrackerState}
    (hinv : Inv s) (h : observe s indent = .ok s2) : Inv s2 := by
  unfold Inv at hinv ⊢
  unfold observe at h
  by_cases h1 : s.current < indent
  · rw [if_pos h1] at h
    injection h with h2
    subst h2
    dsimp only
    refine List.pairwise_cons.mpr ⟨?_, hinv⟩
    intro b hb
    rcases List.mem_cons.mp hb with rfl | hbs
    · exact h1
    · have := List.rel_of_pairwise_cons hinv hbs
      omega
  · rw [if_neg h1] at h
    by_cases h2 : indent < s.current
    · rw [if_pos h2] at h
      by_cases h3 : indent ∈ s.stack
      · rw [if_pos h3] at h
        have hspec := popTo_spec s.stack s.current hinv h3 h2
        by_cases h4 : indent = (popTo indent s.stack s.current).2
        · rw [if_pos h4] at h
          injection h with h5
          subst h5
          exact hspec.2
        · rw [if_neg h4] at h
          cases h
      · rw [if_neg h3] at h
        cases h
    · rw [if_neg h2] at h
      injection h with h5
      subst h5
      exact hinv

/-- Under the invariant, an indent that is deeper, equal, or still on the
stack is accepted, and the observation moves to `nextState`. -/
theorem observe_ok_of_good {s : TrackerState} {indent : Nat}
    (hinv : Inv s)
    (hgood : s.current < indent ∨ indent = s.current ∨ indent ∈ s.stack) :
    observe s indent = .ok (nextState s indent) := by
  unfold observe nextState
  rcases hgood with h1 | h2 | h3
  · rw [if_pos h1, if_pos h1]
  · rw [if_neg (by omega), if_neg (by omega), if_neg (by omega), if_neg (by omega)]
  · have hlt : indent < s.current := List.rel_of_pairwise_cons hinv h3
    have hspec := popTo_spec s.stack s.current hinv h3 hlt
    rw [if_neg (by omega), if_pos hlt, if_pos h3, if_pos hspec.1.symm,
      if_neg (by omega), if_pos hlt]

/-- A successful observation adds at most the old current width (and only
when moving deeper) to the stack. -/
theorem observe_stack_mem {s : TrackerState} {indent : Nat} {s2 : TrackerState}
    (h : observe s indent = .ok s2) :
    ∀ x, x ∈ s2.stack → x ∈ s.stack ∨ (s.current < indent ∧ x = s.current) := by
  unfold observe at h
  intro x hx
  by_cases h1 : s.current < indent
  · rw [if_pos h1] at h
    injection h with h2
    subst h2
    rcases List.mem_cons.mp hx with rfl | hxs
    · exact Or.inr ⟨h1, rfl⟩
    · exact Or.inl hxs
  · rw [if_neg h1] at h
    by_cases h2 : indent < s.current
    · rw [if_pos h2] at h
      by_cases h3 : indent ∈ s.stack
      · rw [if_pos h3] at h
        by_cases h4 : indent = (popTo indent s.stack s.current).2
        · rw [if_pos h4] at h
          injection h with h5
          subst h5
          exact Or.inl (popTo_stack_mem s.stack s.current x hx)
        · rw [if_neg h4] at h
          cases h
      · rw [if_neg h3] at h
        cases h
    · rw [if_neg h2] at h
      injection h with h5
      subst h5
      exact Or.inl hx

/-! ## Branch equations of the scan loop -/

/-- Scanning past a blank or comment line: no error, no state change. -/
theorem scanLines_cons_skip {line : List Char} (s : TrackerState) (n : Nat)
    (rest : List (List Char)) (h : isSkip line = true) :
    scanLines s n (line :: rest) = scanLines s (n + 1) rest := by
  rw [scanLines, if_pos h]

/-- A content line failing one of the three checks stops the scan. -/
theorem scanLines_cons_err {line : List Char} {r : Reason} (s : TrackerState) (n : Nat)
    (rest : List (List Char)) (hskip : isSkip line = false)
    (h : scanLine line = some r) :
    scanLines s n (line :: rest) = .error (n, r) := by
  rw [scanLines, if_neg (by simp [hskip]), h]

/-- A content line passing the checks but rejected by the tracker stops the
scan. -/
theorem scanLines_cons_obs_err {line : List Char} {r : Reason} {s : TrackerState} (n : Nat)
    (rest : List (List Char)) (hskip : isSkip line = false)
    (h1 : scanLine line = none) (h2 : observe s (indentOf line) = .error r) :
    scanLines s n (line :: rest) = .error (n, r) := by
  rw [scanLines, if_neg (by simp [hskip]), h1, h2]

/-- A fully accepted content line advances the scan with the tracker's new
state. -/
theorem scanLines_cons_step {line : List Char} {s s3 : TrackerState} (n : Nat)
    (rest : List (List Char)) (hskip : isSkip line = false)
    (h1 : scanLine line = none) (h2 : observe s (indentOf line) = .ok s3) :
    scanLines s n (line :: rest) = scanLines s3 (n + 1) rest := by
  rw [scanLines, if_neg (by simp [hskip]), h1, h2]

/-- Branch equation of `pushedDuring` for skipped lines. -/
theorem pushedDuring_cons_skip {line : List Char} (s : TrackerState)
    (rest : List (List Char)) (h : isSkip line = true) :
    pushedDuring s (line :: rest) = pushedDuring s rest := by
  rw [pushedDuring, if_pos h]

/-- Branch equation of `pushedDuring` for accepted content lines. -/
theorem pushedDuring_cons_step {line : List Char} {s s3 : TrackerState}
    (rest : List (List Char)) (hskip : isSkip line = false)
    (h1 : scanLine line = none) (h2 : observe s (indentOf line) = .ok s3) :
    pushedDuring s (line :: rest) =
      (if s.current < indentOf line then [s.current] else []) ++ pushedDuring s3 rest := by
  rw [pushedDuring, if_neg (by simp [hskip]), h1, h2]

/-- Branch equation of `goodIndentsB` for skipped lines. -/
theorem goodIndentsB_cons_skip {line : List Char} (s : TrackerState)
    (rest : List (List Char)) (h : isSkip line = true) :
    goodIndentsB s (line :: rest) = goodIndentsB s rest := by
  rw [goodIndentsB, if_pos h]

/-- Branch equation of `goodIndentsB` for content lines. -/
theorem goodIndentsB_cons_content {line : List Char} (s : TrackerState)
    (rest : List (List Char)) (hskip : isSkip line = false) :
    goodIndentsB s (line :: rest) =
      ((decide (s.current < indentOf line) || decide (indentOf line = s.current) ||
        decide (indentOf line ∈ s.stack)) &&
       goodIndentsB (nextState s (indentOf line)) rest) := by
  rw [goodIndentsB, if_neg (by simp [hskip])]

/-! ## Lemmas about the scan loop -/

/-- Scanning a concatenation whose first part succeeds continues on the
second part, from the state and line number the first part ends with. -/
theorem scanLines_append_ok :
    ∀ (xs : List (List Char)) {s : TrackerState} {n : Nat} {s2 : TrackerState}
      (ys : List (List Char)),
      scanLines s n xs = .ok s2 →
      scanLines s n (xs ++ ys) = scanLines s2 (n + xs.length) ys := by
  intro xs
  induction xs with
  | nil =>
    intro s n s2 ys h
    injection h with h2
    subst h2
    simp [scanLines]
  | cons line rest ih =>
    intro s n s2 ys h
    rw [List.cons_append]
    by_cases hskip : isSkip line = true
    · rw [scanLines_cons_skip s n rest hskip] at h
      rw [scanLines_cons_skip s n (rest ++ ys) hskip, ih ys h, List.length_cons]
      congr 1
      omega
    · rw [Bool.not_eq_true] at hskip
      cases hsl : scanLine line with
      | some r =>
        rw [scanLines_cons_err s n rest hskip hsl] at h
        cases h
      | none =>
        cases hob : observe s (indentOf line) with
        | error r =>
          rw [scanLines_cons_obs_err n rest hskip hsl hob] at h
          cases h
        | ok s3 =>
          rw [scanLines_cons_step n rest hskip hsl hob] at h
          rw [scanLines_cons_step n (rest ++ ys) hskip hsl hob, ih ys h, List.length_cons]
          congr 1
          omega

/-- Scanning a concatenation whose first part fails reports exactly the
first part's error, whatever follows. -/
theorem scanLines_append_err :
    ∀ (xs : List (List Char)) {s : TrackerState} {n : Nat} {e : Nat × Reason}
      (ys : List (List Char)),
      scanLines s n xs = .error e →
      scanLines s n (xs ++ ys) = .error e := by
  intro xs
  induction xs with
  | nil =>
    intro s n e ys h
    cases h
  | cons line rest ih =>
    intro s n e ys h
    rw [List.cons_append]
    by_cases hskip : isSkip line = true
    · rw [scanLines_cons_skip s n rest hskip] at h
      rw [scanLines_cons_skip s n (rest ++ ys) hskip]
      exact ih ys h
    · rw [Bool.not_eq_true] at hskip
      cases hsl : scanLine line with
      | some r =>
        rw [scanLines_cons_err s n rest hskip hsl] at h
        rw [scanLines_cons_err s n (rest ++ ys) hskip hsl]
        exact h
      | none =>
        cases hob : observe s (indentOf line) with
        | error r =>
          rw [scanLines_cons_obs_err n rest hskip hsl hob] at h
          rw [scanLines_cons_obs_err n (rest ++ ys) hskip hsl hob]
          exact h
        | ok s3 =>
          rw [scanLines_cons_step n rest hskip hsl hob] at h
          rw [scanLines_cons_step n (rest ++ ys) hskip hsl hob]
          exact ih ys h

/-- When the scan loop reports an error at line `m`, the error lies in
range, the lines before `m` scan successfully, and the lines through `m`
produce that same error no matter what follows them. -/
theorem scanLines_error_spec :
    ∀ (ls : List (List Char)) (s : TrackerState) (n m : Nat) (r : Reason),
      scanLines s n ls = .error (m, r) →
      n ≤ m ∧ m < n + ls.length ∧
      isOkE (scanLines s n (ls.take (m - n))) = true ∧
      ∀ rest, scanLines s n (ls.take (m - n + 1) ++ rest) = .error (m, r) := by
  intro ls
  induction ls with
  | nil =>
    intro s n m r h
    cases h
  | cons line tail ih =>
    intro s n m r h
    by_cases hskip : isSkip line = true
    · rw [scanLines_cons_skip s n tail hskip] at h
      obtain ⟨h1, h2, h3, h4⟩ := ih s (n + 1) m r h
      refine ⟨by omega, by rw [List.length_cons]; omega, ?_, ?_⟩
      · have htake : m - n = (m - (n + 1)) + 1 := by omega
        rw [htake, List.take_succ_cons, scanLines_cons_skip s n _ hskip]
        exact h3
      · intro rest
        have htake : m - n + 1 = (m - (n + 1) + 1) + 1 := by omega
        rw [htake, List.take_succ_cons, List.cons_append, scanLines_cons_skip s n _ hskip]
        exact h4 rest
    · rw [Bool.not_eq_true] at hskip
      cases hsl : scanLine line with
      | some r0 =>
        rw [scanLines_cons_err s n tail hskip hsl] at h
        injection h with h2
        have hm : n = m := congrArg Prod.fst h2
        have hr : r0 = r := congrArg Prod.snd h2
        subst hm
        subst hr
        refine ⟨le_refl n, by rw [List.length_cons]; omega, ?_, ?_⟩
        · simp [scanLines, isOkE]
        · intro rest
          have htake : n - n + 1 = 1 := by omega
          rw [htake]
          simp only [List.take_succ_cons, List.take_zero, List.cons_append, List.nil_append]
          exact scanLines_cons_err s n rest hskip hsl
      | none =>
        cases hob : observe s (indentOf line) with
        | error r0 =>
          rw [scanLines_cons_obs_err n tail hskip hsl hob] at h
          injection h with h2
          have hm : n = m := congrArg Prod.fst h2
          have hr : r0 = r := congrArg Prod.snd h2
          subst hm
          subst hr
          refine ⟨le_refl n, by rw [List.length_cons]; omega, ?_, ?_⟩
          · simp [scanLines, isOkE]
          · intro rest
            have htake : n - n + 1 = 1 := by omega
            rw [htake]
            simp only [List.take_succ_cons, List.take_zero, List.cons_append, List.nil_append]
            exact scanLines_cons_obs_err n rest hskip hsl hob
        | ok s3 =>
          rw [scanLines_cons_step n tail hskip hsl hob] at h
          obtain ⟨h1, h2, h3, h4⟩ := ih s3 (n + 1) m r h
          refine ⟨by omega, by rw [List.length_cons]; omega, ?_, ?_⟩
          · have htake : m - n = (m - (n + 1)) + 1 := by omega
            rw [htake, List.take_succ_cons, scanLines_cons_step n _ hskip hsl hob]
            exact h3
          · intro rest
            have htake : m - n + 1 = (m - (n + 1) + 1) + 1 := by omega
            rw [htake, List.take_succ_cons, List.cons_append,
              scanLines_cons_step n _ hskip hsl hob]
            exact h4 rest

/-- The scan loop preserves the working invariant. -/
theorem scanLines_inv :
    ∀ (ls : List (List Char)) {s : TrackerState} {n : Nat} {s2 : TrackerState},
      Inv s → scanLines s n ls = .ok s2 → Inv s2 := by
  intro ls
  induction ls with
  | nil =>
    intro s n s2 hinv h
    injection h with h2
    subst h2
    exact hinv
  | cons line tail ih =>
    intro s n s2 hinv h
    by_cases hskip : isSkip line = true
    · rw [scanLines_cons_skip s n tail hskip] at h
      exact ih hinv h
    · rw [Bool.not_eq_true] at hskip
      cases hsl : scanLine line with
      | some r =>
        rw [scanLines_cons_err s n tail hskip hsl] at h
        cases h
      | none =>
        cases hob : observe s (indentOf line) with
        | error r =>
          rw [scanLines_cons_obs_err n tail hskip hsl hob] at h
          cases h
        | ok s3 =>
          rw [scanLines_cons_step n tail hskip hsl hob] at h
          exact ih (observe_inv hinv hob) h

/-- Every width on the stack after a successful scan of some lines was on
the stack before, or was pushed during that scan. -/
theorem stack_sub_pushed :
    ∀ (ls : List (List Char)) {s : TrackerState} {n : Nat} {s2 : TrackerState},
      scanLines s n ls = .ok s2 →
      ∀ x, x ∈ s2.stack → x ∈ s.stack ∨ x ∈ pushedDuring s ls := by
  intro ls
  induction ls with
  | nil =>
    intro s n s2 h x hx
    injection h with h2
    subst h2
    exact Or.inl hx
  | cons line tail ih =>
    intro s n s2 h x hx
    by_cases hskip : isSkip line = true
    · rw [scanLines_cons_skip s n tail hskip] at h
      rw [pushedDuring_cons_skip s tail hskip]
      exact ih h x hx
    · rw [Bool.not_eq_true] at hskip
      cases hsl : scanLine line with
      | some r =>
        rw [scanLines_cons_err s n tail hskip hsl] at h
        cases h
      | none =>
        cases hob : observe s (indentOf line) with
        | error r =>
          rw [scanLines_cons_obs_err n tail hskip hsl hob] at h
          cases h
        | ok s3 =>
          rw [scanLines_cons_step n tail hskip hsl hob] at h
          rw [pushedDuring_cons_step tail hskip hsl hob]
          rcases ih h x hx with hx3 | hpush
          · rcases observe_stack_mem hob x hx3 with hxs | ⟨hdeep, rfl⟩
            · exact Or.inl hxs
            · exact Or.inr (by simp [hdeep])
          · exact Or.inr (by simp [hpush])

/-- The spec's invariant on the conceptual bottom-to-top stack coincides
with the working invariant on the code's representation. -/
theorem specInv_iff (s : TrackerState) : SpecInv s ↔ Inv s := by
  unfold SpecInv Inv fullStack
  have hrw : s.stack.reverse ++ [s.current] = (s.current :: s.stack).reverse := by
    simp
  rw [hrw]
  constructor
  · rintro ⟨hp, _⟩
    exact List.pairwise_reverse.mp hp
  · intro hp
    exact ⟨List.pairwise_reverse.mpr hp, by simp⟩

/-! ## From a clean prefix to the reported verdict -/

/-- If an initial segment of the document scans cleanly and the next line
trips one of the three checks, the whole scan reports that line. -/
theorem check_invalid_of_line_err {c : List Char} {pre : List (List Char)}
    {line : List Char} {rest : List (List Char)} {s : TrackerState} {r : Reason}
    (hsplit : splitNl c = pre ++ line :: rest)
    (hpre : scanLines initState 1 pre = .ok s)
    (hskip : isSkip line = false)
    (herr : scanLine line = some r) :
    basic_yaml_syntax_check c = .invalid (pre.length + 1) r := by
  unfold basic_yaml_syntax_check
  rw [hsplit, scanLines_append_ok pre (line :: rest) hpre,
    scanLines_cons_err s (1 + pre.length) rest hskip herr, Nat.add_comm 1 pre.length]

/-- If an initial segment scans cleanly and the next line passes the three
checks but is rejected by the indentation tracker, the whole scan reports
that line. -/
theorem check_invalid_of_obs_err {c : List Char} {pre : List (List Char)}
    {line : List Char} {rest : List (List Char)} {s : TrackerState} {r : Reason}
    (hsplit : splitNl c = pre ++ line :: rest)
    (hpre : scanLines initState 1 pre = .ok s)
    (hskip : isSkip line = false)
    (hnone : scanLine line = none)
    (hob : observe s (indentOf line) = .error r) :
    basic_yaml_syntax_check c = .invalid (pre.length + 1) r := by
  unfold basic_yaml_syntax_check
  rw [hsplit, scanLines_append_ok pre (line :: rest) hpre,
    scanLines_cons_obs_err (1 + pre.length) rest hskip hnone hob,
    Nat.add_comm 1 pre.length]

/-! ## Evaluating the three checks on one line -/

/-- A line whose delimiter and key checks pass and which contains a tab
trips exactly the tab check. -/
theorem scanLine_tab {line : List Char}
    (htab : hasTab line = true)
    (hdelim : hasColon line = true ∨ headIs (strip line) '-' = true)
    (hkey : hasColon line = true → hasBadKeyChar (strip (keyOf line)) = false) :
    scanLine line = some .TabCharacterFound := by
  unfold scanLine
  have h2 : ¬((hasColon line && hasBadKeyChar (strip (keyOf line))) = true) := by
    cases hc2 : hasColon line with
    | false => simp
    | true => simp [hkey hc2]
  rcases hdelim with hc | hd
  · rw [if_neg (by simp [hc]), if_neg h2, if_pos htab]
  · rw [if_neg (by simp [hd]), if_neg h2, if_pos htab]

/-- A line containing the delimiter with a bad character in its key trips
exactly the key check. -/
theorem scanLine_key {line : List Char}
    (hc : hasColon line = true)
    (hbad : hasBadKeyChar (strip (keyOf line)) = true) :
    scanLine line = some .InvalidKeyCharacter := by
  unfold scanLine
  rw [if_neg (by simp [hc]), if_pos (by simp [hc, hbad])]

/-- A content line with no delimiter that does not start with the list
marker trips exactly the missing-delimiter check, regardless of tabs. -/
theorem scanLine_missing {line : List Char}
    (hskip : isSkip line = false)
    (hc : hasColon line = false)
    (hd : headIs (strip line) '-' = false) :
    scanLine line = some .MissingDelimiterOrListMarker := by
  have hpair : (strip line).isEmpty = false ∧ headIs (strip line) '#' = false := by
    unfold isSkip at hskip
    constructor
    · cases h : (strip line).isEmpty
      · rfl
      · rw [h] at hskip
        simp at hskip
    · cases h : headIs (strip line) '#'
      · rfl
      · rw [h] at hskip
        simp at hskip
  unfold scanLine
  rw [if_pos (by simp [hc, hd, hpair.1, hpair.2])]

/-- A line of amended-good shape with no tab passes all three checks. -/
theorem scanLine_none_of_good {line : List Char}
    (hshape : goodShapeB line = true) (htab : hasTab line = false) :
    scanLine line = none := by
  unfold goodShapeB at hshape
  rw [Bool.and_eq_true] at hshape
  have h2 : ¬((hasColon line && hasBadKeyChar (strip (keyOf line))) = true) := by
    cases hc2 : hasColon line with
    | false => simp
    | true =>
      have := hshape.2
      rw [hc2] at this
      simp at this
      simp [this]
  have h1 : ¬((!hasColon line && !headIs (strip line) '-' &&
      !(strip line).isEmpty && !headIs (strip line) '#') = true) := by
    have := hshape.1
    rw [Bool.or_eq_true] at this
    rcases this with hc | hd
    · simp [hc]
    · simp [hd]
  unfold scanLine
  rw [if_neg h1, if_neg h2, if_neg (by simp [htab])]

/-- Completeness of the scan: under the stack invariant, lines of good shape
with no tabs whose indents follow the discipline are all accepted. -/
theorem scanLines_ok_of_good :
    ∀ (ls : List (List Char)) (s : TrackerState) (n : Nat),
      Inv s →
      (∀ line ∈ ls, isSkip line = false → goodShapeB line = true) →
      (∀ line ∈ ls, hasTab line = false) →
      goodIndentsB s ls = true →
      isOkE (scanLines s n ls) = true := by
  intro ls
  induction ls with
  | nil =>
    intro s n _ _ _ _
    simp [scanLines, isOkE]
  | cons line tail ih =>
    intro s n hinv hsh htb hind
    by_cases hskip : isSkip line = true
    · rw [scanLines_cons_skip s n tail hskip]
      rw [goodIndentsB_cons_skip s tail hskip] at hind
      exact ih s (n + 1) hinv (fun l hl => hsh l (List.mem_cons_of_mem line hl))
        (fun l hl => htb l (List.mem_cons_of_mem line hl)) hind
    · rw [Bool.not_eq_true] at hskip
      have hshape := hsh line (List.mem_cons_self line tail) hskip
      have htab := htb line (List.mem_cons_self line tail)
      have hsl := scanLine_none_of_good hshape htab
      rw [goodIndentsB_cons_content s tail hskip, Bool.and_eq_true] at hind
      obtain ⟨htri, hrest⟩ := hind
      simp only [Bool.or_eq_true, decide_eq_true_eq] at htri
      have hob := observe_ok_of_good hinv (by tauto)
      rw [scanLines_cons_step n tail hskip hsl hob]
      exact ih (nextState s (indentOf line)) (n + 1) (observe_inv hinv hob)
        (fun l hl => hsh l (List.mem_cons_of_mem line hl))
        (fun l hl => htb l (List.mem_cons_of_mem line hl)) hrest

/-- Reading the verdict back as the loop's error. -/
theorem check_eq_invalid_iff {c : List Char} {n : Nat} {r : Reason} :
    basic_yaml_syntax_check c = .invalid n r ↔
    scanLines initState 1 (splitNl c) = .error (n, r) := by
  unfold basic_yaml_syntax_check
  cases hres : scanLines initState 1 (splitNl c) with
  | ok s => simp
  | error e =>
    cases e with
    | mk m r0 => simp

/-- Extracting the success state from a true `isOkE`. -/
theorem isOkE_ok {e : Except (Nat × Reason) TrackerState} (h : isOkE e = true) :
    ∃ s, e = .ok s := by
  cases e with
  | ok s => exact ⟨s, rfl⟩
  | error x => simp [isOkE] at h

/-! ## Claims -/

/-- C1, counterexample to the claim as stated: the document consisting of a
single tab character has a line containing a tab, yet the scan verdict is
valid (the line is blank after stripping, so it is skipped); and the
document `a<TAB>b` has its only line containing a tab, yet the reason
reported is the missing-delimiter error, not TabCharacterFound. -/
theorem claim_C1_counterexample :
    (hasTab ['\t'] = true ∧ basic_yaml_syntax_check ['\t'] = .valid) ∧
    (hasTab ['a', '\t', 'b'] = true ∧
      basic_yaml_syntax_check ['a', '\t', 'b'] =
        .invalid 1 .MissingDelimiterOrListMarker) := by
  decide

/-- C1 as amended: whenever a content line (one not skipped as blank or
comment) contains a tab character, every earlier line scans cleanly, and
the line passes the delimiter and key-character checks, the scan verdict is
invalid with reason TabCharacterFound at that line's 1-based position. -/
theorem claim_C1_amended (c : List Char) (pre : List (List Char)) (line : List Char)
    (rest : List (List Char)) (s : TrackerState)
    (hsplit : splitNl c = pre ++ line :: rest)
    (hpre : scanLines initState 1 pre = .ok s)
    (hskip : isSkip line = false)
    (htab : hasTab line = true)
    (hdelim : hasColon line = true ∨ headIs (strip line) '-' = true)
    (hkey : hasColon line = true → hasBadKeyChar (strip (keyOf line)) = false) :
    basic_yaml_syntax_check c = .invalid (pre.length + 1) .TabCharacterFound :=
  check_invalid_of_line_err hsplit hpre hskip (scanLine_tab htab hdelim hkey)

/-- Witness for C1 as amended, on the document `a:\nb:<TAB>c`. -/
theorem claim_C1_witness :
    basic_yaml_syntax_check ['a', ':', '\n', 'b', ':', '\t', 'c'] =
      .invalid 2 .TabCharacterFound :=
  claim_C1_amended ['a', ':', '\n', 'b', ':', '\t', 'c'] [['a', ':']]
    ['b', ':', '\t', 'c'] [] ⟨[], 0⟩ (by decide) (by decide) (by decide) (by decide)
    (Or.inl (by decide)) (fun _ => by decide)

/-- C2: the conceptual indentation stack (pushed widths bottom to top with
the current active width as its top) is strictly increasing at scan start,
is preserved by every accepted per-line observation of the tracker, and
hence holds in every state a scan can reach. -/
theorem claim_C2_invariant :
    SpecInv initState ∧
    (∀ s indent s2, SpecInv s → observe s indent = .ok s2 → SpecInv s2) ∧
    (∀ ls s2, scanLines initState 1 ls = .ok s2 → SpecInv s2) := by
  refine ⟨by decide, ?_, ?_⟩
  · intro s indent s2 hs hob
    exact (specInv_iff s2).mpr (observe_inv ((specInv_iff s).mp hs) hob)
  · intro ls s2 h
    exact (specInv_iff s2).mpr (scanLines_inv ls (by decide) h)

/-- Witness for C2: one concrete accepted observation preserves the
invariant. -/
theorem claim_C2_witness : SpecInv ⟨[0], 2⟩ :=
  claim_C2_invariant.2.1 ⟨[], 0⟩ 2 ⟨[0], 2⟩ (by decide) (by decide)

/-- C3, counterexample to the claim as stated: the single-line document
`- a.b: 1` meets the claim's hypotheses read literally — the line is
content, its stripped form begins with the list-item marker, it has no tab,
and its indent width equals the current width — yet the scan is invalid
(the code still applies the key check because the line contains the
delimiter, and the key `- a.b` holds a dot). -/
theorem claim_C3_counterexample :
    isSkip ['-', ' ', 'a', '.', 'b', ':', ' ', '1'] = false ∧
    specLineShapeOK ['-', ' ', 'a', '.', 'b', ':', ' ', '1'] = true ∧
    hasTab ['-', ' ', 'a', '.', 'b', ':', ' ', '1'] = false ∧
    indentOf ['-', ' ', 'a', '.', 'b', ':', ' ', '1'] = initState.current ∧
    basic_yaml_syntax_check ['-', ' ', 'a', '.', 'b', ':', ' ', '1'] =
      .invalid 1 .InvalidKeyCharacter := by
  decide

/-- C3 as amended: if every content line contains the delimiter or starts
with the list-item marker and, whenever it contains the delimiter, its key
is made only of allowed characters; no line contains a tab; and every
content line's indent width is greater than the current width, equal to it,
or a previously pushed width still on the stack — then the scan is valid. -/
theorem claim_C3_amended (c : List Char)
    (hshape : ∀ line ∈ splitNl c, isSkip line = false → goodShapeB line = true)
    (htab : ∀ line ∈ splitNl c, hasTab line = false)
    (hind : goodIndentsB initState (splitNl c) = true) :
    basic_yaml_syntax_check c = .valid := by
  have h := scanLines_ok_of_good (splitNl c) initState 1 (by decide) hshape htab hind
  obtain ⟨s, hs⟩ := isOkE_ok h
  unfold basic_yaml_syntax_check
  rw [hs]

/-- Witness for C3 as amended, on the document `a:\n  b: 1\nc: 2`. -/
theorem claim_C3_witness :
    basic_yaml_syntax_check
      ['a', ':', '\n', ' ', ' ', 'b', ':', ' ', '1', '\n', 'c', ':', ' ', '2'] = .valid :=
  claim_C3_amended ['a', ':', '\n', ' ', ' ', 'b', ':', ' ', '1', '\n', 'c', ':', ' ', '2']
    (by decide) (by decide) (by decide)

/-- C4: when the scan reaches a content line that passes the three checks,
whose indent width is smaller than the current active width and was never
pushed onto the indentation stack while scanning the earlier lines, the
verdict is invalid with reason InconsistentIndentation at that line's
1-based position. -/
theorem claim_C4_never_pushed (c : List Char) (pre : List (List Char)) (line : List Char)
    (rest : List (List Char)) (s : TrackerState)
    (hsplit : splitNl c = pre ++ line :: rest)
    (hpre : scanLines initState 1 pre = .ok s)
    (hskip : isSkip line = false)
    (hchecks : scanLine line = none)
    (hlt : indentOf line < s.current)
    (hnever : indentOf line ∉ pushedDuring initState pre) :
    basic_yaml_syntax_check c = .invalid (pre.length + 1) .InconsistentIndentation := by
  have hnotin : indentOf line ∉ s.stack := by
    intro hin
    rcases stack_sub_pushed pre hpre (indentOf line) hin with h0 | hp
    · simp [initState] at h0
    · exact hnever hp
  have hob : observe s (indentOf line) = .error .InconsistentIndentation := by
    unfold observe
    rw [if_neg (by omega), if_pos hlt, if_neg hnotin]
  exact check_invalid_of_obs_err hsplit hpre hskip hchecks hob

/-- Witness for C4 on the document `a: 1\n    b: 2\n  c: 3` (the width
sequence 0, 4, 2 of the spec's example). -/
theorem claim_C4_witness :
    basic_yaml_syntax_check
      ['a', ':', ' ', '1', '\n', ' ', ' ', ' ', ' ', 'b', ':', ' ', '2', '\n',
       ' ', ' ', 'c', ':', ' ', '3'] = .invalid 3 .InconsistentIndentation :=
  claim_C4_never_pushed
    ['a', ':', ' ', '1', '\n', ' ', ' ', ' ', ' ', 'b', ':', ' ', '2', '\n',
     ' ', ' ', 'c', ':', ' ', '3']
    [['a', ':', ' ', '1'], [' ', ' ', ' ', ' ', 'b', ':', ' ', '2']]
    [' ', ' ', 'c', ':', ' ', '3'] [] ⟨[0], 4⟩
    (by decide) (by decide) (by decide) (by decide) (by decide) (by decide)

/-- C5: the size gate accepts a stat result of exactly 1,048,576 bytes,
rejects 1,048,577 bytes, and on a stat error returns false instead of
propagating the error to its caller. -/
theorem claim_C5_size_gate :
    validate_file_size (.ok 1048576) 1048576 = true ∧
    validate_file_size (.ok 1048577) 1048576 = false ∧
    ∀ e : String, validate_file_size (.error e) 1048576 = false :=
  ⟨rfl, rfl, fun _ => rfl⟩

/-- C6: the scan result does not depend on any tracker state left behind by
a previous invocation — the function re-initialises the stack and current
width on entry — so scanning identical content twice, in any order and
after any history, yields identical verdicts. -/
theorem claim_C6_deterministic :
    ∀ (s1 s2 : TrackerState) (c : List Char),
      scanFrom s1 c = scanFrom s2 c ∧ scanFrom s1 c = basic_yaml_syntax_check c :=
  fun _ _ _ => ⟨rfl, rfl⟩

/-- C7: an invalid verdict always points at the first violating line: the
reported number is in range, the lines before it scan cleanly, and the
lines up to and including it already force this exact error no matter what
lines follow — so no later line influences the verdict and only one error
is reported. -/
theorem claim_C7_first_violation (c : List Char) (n : Nat) (r : Reason)
    (rest : List (List Char))
    (h : basic_yaml_syntax_check c = .invalid n r) :
    1 ≤ n ∧ n ≤ (splitNl c).length ∧
    isOkE (scanLines initState 1 ((splitNl c).take (n - 1))) = true ∧
    scanLines initState 1 ((splitNl c).take n ++ rest) = .error (n, r) := by
  have herr := check_eq_invalid_iff.mp h
  obtain ⟨h1, h2, h3, h4⟩ := scanLines_error_spec (splitNl c) initState 1 n r herr
  refine ⟨h1, by omega, h3, ?_⟩
  have hn : n - 1 + 1 = n := by omega
  have := h4 rest
  rw [hn] at this
  exact this

/-- Witness for C7 on the document `a:\nx y\nz: 1` with an arbitrary extra
line appended after the violating one. -/
theorem claim_C7_witness :
    1 ≤ 2 ∧
    2 ≤ (splitNl ['a', ':', '\n', 'x', ' ', 'y', '\n', 'z', ':', ' ', '1']).length ∧
    isOkE (scanLines initState 1
      ((splitNl ['a', ':', '\n', 'x', ' ', 'y', '\n', 'z', ':', ' ', '1']).take 1)) = true ∧
    scanLines initState 1
      ((splitNl ['a', ':', '\n', 'x', ' ', 'y', '\n', 'z', ':', ' ', '1']).take 2 ++
        [['@', '@']]) = .error (2, .MissingDelimiterOrListMarker) :=
  claim_C7_first_violation ['a', ':', '\n', 'x', ' ', 'y', '\n', 'z', ':', ' ', '1'] 2
    .MissingDelimiterOrListMarker [['@', '@']] (by decide)

/-- C8: a line that is blank after stripping or whose stripped form starts
with the comment marker is skipped entirely: whatever characters it holds
(tabs included), the scan continues at the next line with the tracker state
unchanged, so the line can never cause an invalid verdict. -/
theorem claim_C8_skip (s : TrackerState) (n : Nat) (line : List Char)
    (rest : List (List Char)) (h : isSkip line = true) :
    scanLines s n (line :: rest) = scanLines s (n + 1) rest :=
  scanLines_cons_skip s n rest h

/-- Witness for C8 on a comment line containing a tab. -/
theorem claim_C8_witness :
    scanLines ⟨[], 0⟩ 1 ([' ', '#', '\t', 'a'] :: [['x', ':']]) =
      scanLines ⟨[], 0⟩ 2 [['x', ':']] :=
  claim_C8_skip ⟨[], 0⟩ 1 [' ', '#', '\t', 'a'] [['x', ':']] (by decide)

/-- C9: when the scan reaches a content line containing the delimiter whose
candidate key — the trimmed substring before the first delimiter — holds a
character outside word characters, whitespace and hyphen, the verdict is
invalid with reason InvalidKeyCharacter at that line's 1-based position. -/
theorem claim_C9_bad_key (c : List Char) (pre : List (List Char)) (line : List Char)
    (rest : List (List Char)) (s : TrackerState)
    (hsplit : splitNl c = pre ++ line :: rest)
    (hpre : scanLines initState 1 pre = .ok s)
    (hskip : isSkip line = false)
    (hc : hasColon line = true)
    (hbad : hasBadKeyChar (strip (keyOf line)) = true) :
    basic_yaml_syntax_check c = .invalid (pre.length + 1) .InvalidKeyCharacter :=
  check_invalid_of_line_err hsplit hpre hskip (scanLine_key hc hbad)

/-- Witness for C9 on the spec's example document `a.b: 1`. -/
theorem claim_C9_witness :
    basic_yaml_syntax_check ['a', '.', 'b', ':', ' ', '1'] =
      .invalid 1 .InvalidKeyCharacter :=
  claim_C9_bad_key ['a', '.', 'b', ':', ' ', '1'] [] ['a', '.', 'b', ':', ' ', '1'] []
    ⟨[], 0⟩ (by decide) (by decide) (by decide) (by decide) (by decide)

/-- C10: when the scan reaches a content line that contains a tab but no
delimiter and whose stripped form does not begin with the list-item marker,
the reported reason is the missing-delimiter error and not the tab error:
the delimiter check runs before the tab check. -/
theorem claim_C10_delim_before_tab (c : List Char) (pre : List (List Char))
    (line : List Char) (rest : List (List Char)) (s : TrackerState)
    (hsplit : splitNl c = pre ++ line :: rest)
    (hpre : scanLines initState 1 pre = .ok s)
    (hskip : isSkip line = false)
    (_htab : hasTab line = true)
    (hc : hasColon line = false)
    (hd : headIs (strip line) '-' = false) :
    basic_yaml_syntax_check c = .invalid (pre.length + 1) .MissingDelimiterOrListMarker ∧
    Reason.MissingDelimiterOrListMarker ≠ Reason.TabCharacterFound :=
  ⟨check_invalid_of_line_err hsplit hpre hskip (scanLine_missing hskip hc hd),
   by decide⟩

/-- Witness for C10 on the document `x<TAB>y`. -/
theorem claim_C10_witness :
    basic_yaml_syntax_check ['x', '\t', 'y'] =
      .invalid 1 .MissingDelimiterOrListMarker ∧
    Reason.MissingDelimiterOrListMarker ≠ Reason.TabCharacterFound :=
  claim_C10_delim_before_tab ['x', '\t', 'y'] [] ['x', '\t', 'y'] [] ⟨[], 0⟩
    (by decide) (by decide) (by decide) (by decide) (by decide) (by decide)

end YamlCheck
